/-
Verification of the inat_habitat_modeling pipeline against its
natural-language specification.

Each section embeds one part of the Python source shallowly in Lean:
pure functions become Lean functions, float NaN/Inf values are modelled
as `none` in `Option ℚ` (exact rational arithmetic stands in for IEEE
arithmetic), and fallible code returns `Except`/`Option`.
-/
import Mathlib

/-- A float cell value: `none` models a non-finite float (NaN or ±Inf),
`some q` a finite value. -/
abbrev FloatVal := Option ℚ

namespace VizLoader

/-!
Embedding of `viz/loader.py`.

`LeafNode`/`Node` become one inductive type; the `suit`, `feature` and
`threshold` payloads are carried so the shape matches the source classes,
but `label`/`palette`/`range` metadata (optional, unused by the two
traversals) is omitted from the constructor payload.
-/

inductive Tree where
  | leaf (suit : ℚ) : Tree
  | node (feature : String) (threshold : ℚ) (yes no : Tree) : Tree
deriving DecidableEq

/-- `max_depth(node, depth=0)` from viz/loader.py. -/
def max_depth : Tree → Nat → Nat
  | Tree.leaf _, depth => depth
  | Tree.node _ _ yes no, depth =>
      max (max_depth yes (depth + 1)) (max_depth no (depth + 1))

/-- `count_leaves(node)` from viz/loader.py. -/
def count_leaves : Tree → Nat
  | Tree.leaf _ => 1
  | Tree.node _ _ yes no => count_leaves yes + count_leaves no

/-- A tree is fully balanced at depth `d` when every leaf sits at depth
exactly `d`. -/
def isPerfect : Tree → Nat → Bool
  | Tree.leaf _, d => d == 0
  | Tree.node _ _ _ _, 0 => false
  | Tree.node _ _ yes no, d + 1 => isPerfect yes d && isPerfect no d

lemma max_depth_of_isPerfect (t : Tree) (d acc : Nat)
    (h : isPerfect t d = true) : max_depth t acc = acc + d := by
  induction t generalizing d acc with
  | leaf s =>
      simp only [isPerfect, beq_iff_eq] at h
      simp [max_depth, h]
  | node f thr yes no ihy ihn =>
      cases d with
      | zero => simp [isPerfect] at h
      | succ d =>
          simp only [isPerfect, Bool.and_eq_true] at h
          simp only [max_depth, ihy d (acc + 1) h.1, ihn d (acc + 1) h.2]
          omega

lemma count_leaves_of_isPerfect (t : Tree) (d : Nat)
    (h : isPerfect t d = true) : count_leaves t = 2 ^ d := by
  induction t generalizing d with
  | leaf s =>
      simp only [isPerfect, beq_iff_eq] at h
      simp [count_leaves, h]
  | node f thr yes no ihy ihn =>
      cases d with
      | zero => simp [isPerfect] at h
      | succ d =>
          simp only [isPerfect, Bool.and_eq_true] at h
          simp only [count_leaves, ihy d h.1, ihn d h.2]
          ring

end VizLoader

namespace YamlLoader

/-!
Embedding of `utils/yaml_loader.py :: deep_merge`.

A YAML/Python value is a scalar or a dict; a dict is an insertion-ordered
association list (the Python dict invariant is that its keys are distinct).
`a[k] = v` replaces the value in place when `k` is present and appends
otherwise, exactly as Python dict assignment does.
-/

inductive PyVal where
  | scalar (z : ℤ)
  | dict (entries : List (String × PyVal))

/-- Python dict lookup `a[k]` / `k in a`, as an option. -/
def lookupD : List (String × PyVal) → String → Option PyVal
  | [], _ => none
  | (k, v) :: rest, key => if k = key then some v else lookupD rest key

/-- Python dict assignment `a[key] = v` on the association-list model. -/
def setD : List (String × PyVal) → String → PyVal → List (String × PyVal)
  | [], key, v => [(key, v)]
  | (k, w) :: rest, key, v =>
      if k = key then (k, v) :: rest else (k, w) :: setD rest key v

/-- `deep_merge(a, b)` from utils/yaml_loader.py: for each key of `b`, if
both sides hold dicts at that key (`k in a and isinstance(a[k], dict) and
isinstance(v, dict)`), merge recursively; otherwise the value from `b`
overwrites.  The source's single `if` is rendered as matching on the shape
of `v` and of `a[k]`. -/
def deep_merge : List (String × PyVal) → List (String × PyVal) → List (String × PyVal)
  | a, [] => a
  | a, (k, PyVal.scalar z) :: rest => deep_merge (setD a k (PyVal.scalar z)) rest
  | a, (k, PyVal.dict be) :: rest =>
      match lookupD a k with
      | some (PyVal.dict ae) => deep_merge (setD a k (PyVal.dict (deep_merge ae be))) rest
      | _ => deep_merge (setD a k (PyVal.dict be)) rest
termination_by _a b => sizeOf b
decreasing_by
  all_goals simp_wf
  all_goals omega

def keysD (l : List (String × PyVal)) : List String := l.map Prod.fst

/-- Modelled from the spec: the per-key description of the merge result —
the local document wins per leaf key, siblings from the default survive,
and nested dicts merge recursively. -/
def mergedLookup (a b : List (String × PyVal)) (key : String) : Option PyVal :=
  match lookupD b key, lookupD a key with
  | none, r => r
  | some (PyVal.dict be), some (PyVal.dict ae) => some (PyVal.dict (deep_merge ae be))
  | some v, _ => some v

lemma lookupD_eq_none {e : List (String × PyVal)} {key : String}
    (h : key ∉ keysD e) : lookupD e key = none := by
  induction e with
  | nil => rfl
  | cons p rest ih =>
      obtain ⟨k, v⟩ := p
      simp only [keysD, List.map_cons, List.mem_cons, not_or] at h
      rw [lookupD, if_neg (fun hk => h.1 hk.symm)]
      exact ih (by simpa [keysD] using h.2)

lemma lookupD_setD_self (a : List (String × PyVal)) (k : String) (v : PyVal) :
    lookupD (setD a k v) k = some v := by
  induction a with
  | nil => simp [setD, lookupD]
  | cons p rest ih =>
      obtain ⟨k', w⟩ := p
      by_cases hk : k' = k
      · simp [setD, hk, lookupD]
      · simp [setD, hk, lookupD, ih]

lemma lookupD_setD_ne (a : List (String × PyVal)) {k key : String} (v : PyVal)
    (h : k ≠ key) : lookupD (setD a k v) key = lookupD a key := by
  induction a with
  | nil => simp [setD, lookupD, h]
  | cons p rest ih =>
      obtain ⟨k', w⟩ := p
      by_cases hk : k' = k
      · subst hk
        simp [setD, lookupD, h, ih]
      · simp [setD, hk, lookupD, ih]

lemma lookupD_deep_merge (a b : List (String × PyVal)) (key : String)
    (hb : (keysD b).Nodup) :
    lookupD (deep_merge a b) key = mergedLookup a b key := by
  induction b generalizing a with
  | nil => simp [deep_merge, mergedLookup, lookupD]
  | cons p rest ih =>
      obtain ⟨k, v⟩ := p
      simp only [keysD, List.map_cons, List.nodup_cons] at hb
      have hbrest : (keysD rest).Nodup := by simpa [keysD] using hb.2
      have hset : ∀ w : PyVal, k ≠ key →
          lookupD (setD a k w) key = lookupD a key :=
        fun w hk => lookupD_setD_ne a w hk
      cases v with
      | scalar z =>
          rw [deep_merge, ih _ hbrest]
          by_cases hkey : k = key
          · subst hkey
            have hrest : lookupD rest k = none :=
              lookupD_eq_none (by simpa [keysD] using hb.1)
            simp [mergedLookup, hrest, lookupD, lookupD_setD_self]
          · simp [mergedLookup, lookupD, hkey, hset _ hkey]
      | dict be =>
          rw [deep_merge]
          cases ha : lookupD a k with
          | none =>
              rw [ih _ hbrest]
              by_cases hkey : k = key
              · subst hkey
                have hrest : lookupD rest k = none :=
                  lookupD_eq_none (by simpa [keysD] using hb.1)
                simp [mergedLookup, hrest, lookupD, lookupD_setD_self, ha]
              · simp [mergedLookup, lookupD, hkey, hset _ hkey]
          | some w =>
              cases w with
              | scalar z =>
                  rw [ih _ hbrest]
                  by_cases hkey : k = key
                  · subst hkey
                    have hrest : lookupD rest k = none :=
                      lookupD_eq_none (by simpa [keysD] using hb.1)
                    simp [mergedLookup, hrest, lookupD, lookupD_setD_self, ha]
                  · simp [mergedLookup, lookupD, hkey, hset _ hkey]
              | dict ae =>
                  rw [ih _ hbrest]
                  by_cases hkey : k = key
                  · subst hkey
                    have hrest : lookupD rest k = none :=
                      lookupD_eq_none (by simpa [keysD] using hb.1)
                    simp [mergedLookup, hrest, lookupD, lookupD_setD_self, ha]
                  · simp [mergedLookup, lookupD, hkey, hset _ hkey]

end YamlLoader

/-- C7: the configuration deep-merge lets the local document win per leaf
key while sibling keys from the default survive, recursively for nested
dicts (stated as: looking any key up in the merged dict gives the local
value, the recursive merge for key-wise nested dicts, or else the default
value); in particular merging default `{a: {x: 1, y: 2}}` with local
`{a: {y: 9}}` yields `{a: {x: 1, y: 9}}`. -/
theorem C7_deep_merge_local_wins :
    (∀ a b : List (String × YamlLoader.PyVal), ∀ key : String,
      (YamlLoader.keysD b).Nodup →
      YamlLoader.lookupD (YamlLoader.deep_merge a b) key =
        YamlLoader.mergedLookup a b key) ∧
    YamlLoader.deep_merge
        [("a", YamlLoader.PyVal.dict
            [("x", YamlLoader.PyVal.scalar 1), ("y", YamlLoader.PyVal.scalar 2)])]
        [("a", YamlLoader.PyVal.dict [("y", YamlLoader.PyVal.scalar 9)])] =
      [("a", YamlLoader.PyVal.dict
          [("x", YamlLoader.PyVal.scalar 1), ("y", YamlLoader.PyVal.scalar 9)])] := by
  constructor
  · exact fun a b key hb => YamlLoader.lookupD_deep_merge a b key hb
  · simp [YamlLoader.deep_merge, YamlLoader.lookupD, YamlLoader.setD]

/-- C7 witness: instantiating the merge characterization on the concrete
default `{a: {x: 1, y: 2}}` and local `{a: {y: 9}}` at key `a`. -/
theorem C7_deep_merge_local_wins_witness :
    YamlLoader.lookupD
        (YamlLoader.deep_merge
          [("a", YamlLoader.PyVal.dict
              [("x", YamlLoader.PyVal.scalar 1), ("y", YamlLoader.PyVal.scalar 2)])]
          [("a", YamlLoader.PyVal.dict [("y", YamlLoader.PyVal.scalar 9)])]) "a" =
      YamlLoader.mergedLookup
        [("a", YamlLoader.PyVal.dict
            [("x", YamlLoader.PyVal.scalar 1), ("y", YamlLoader.PyVal.scalar 2)])]
        [("a", YamlLoader.PyVal.dict [("y", YamlLoader.PyVal.scalar 9)])] "a" :=
  C7_deep_merge_local_wins.1 _ _ "a" (by simp [YamlLoader.keysD])

namespace TreeExplain

/-!
Embedding of `infer_semantics` as defined identically (up to the range
being a 2-element list vs a 2-tuple) in `analyse/tree_explain.py` and
`analyse/global_surrogate_train.py`.

Python's `int(str)` is modelled by `pyInt`: strip surrounding whitespace,
optional sign, then decimal digits with single underscores allowed only
between digits; any other input raises `ValueError`, i.e. returns `none`
(the caller catches the exception and falls back).  Python string slicing
`s[i:j]` / `s[i:]` never raises and is modelled by `pySlice`/`pyDropFrom`.
`"_" in s` for the single-character needle is `s.contains '_'`.
-/

def stripPy (cs : List Char) : List Char :=
  ((cs.dropWhile Char.isWhitespace).reverse.dropWhile Char.isWhitespace).reverse

def digitsTail : List Char → Bool
  | [] => true
  | ['_'] => false
  | '_' :: c :: rest => c.isDigit && digitsTail rest
  | c :: rest => c.isDigit && digitsTail rest

def digitsOk : List Char → Bool
  | [] => false
  | c :: rest => c.isDigit && digitsTail rest

def digitsVal (cs : List Char) : ℤ :=
  cs.foldl (fun acc c => if c = '_' then acc else acc * 10 + ((c.toNat : ℤ) - 48)) 0

def pyInt (s : String) : Option ℤ :=
  match stripPy s.data with
  | '+' :: r => if digitsOk r then some (digitsVal r) else none
  | '-' :: r => if digitsOk r then some (-(digitsVal r)) else none
  | r => if digitsOk r then some (digitsVal r) else none

def pySlice (s : String) (a b : Nat) : String := String.mk ((s.data.drop a).take (b - a))

def pyDropFrom (s : String) (a : Nat) : String := String.mk (s.data.drop a)

/-- Python `s.startswith(pre)`. -/
def pyStartsWith (s pre : String) : Bool := pre.data.isPrefixOf s.data

/-- Python `c in s` for a single-character needle. -/
def pyContainsChar (s : String) (c : Char) : Bool := s.data.contains c

structure Semantics where
  label : String
  palette : List String
  range : List ℚ
deriving DecidableEq

def NDVI_PALETTE : List String := ["#f2f2f2", "#a3c586", "#2f6b3a"]
def NDWI_PALETTE : List String := ["#f7fbff", "#6baed6", "#08519c"]
def MORAN_PALETTE : List String := ["#fee8c8", "#fdbb84", "#e34a33"]
def GEARY_PALETTE : List String := ["#f7f4f9", "#998ec3", "#542788"]

def RANGES_ndvi_mean : List ℚ := [0, 1]
def RANGES_ndwi_mean : List ℚ := [-1, 1]
def RANGES_moran : List ℚ := [-1/5, 4]
def RANGES_geary : List ℚ := [0, 3/2]

/-- The fallback record: the raw name as label, the neutral gray palette,
range `[0.0, 1.0]`. -/
def grayFallback (name : String) : Semantics :=
  ⟨name, ["#dddddd", "#aaaaaa", "#666666"], [0, 1]⟩

/-- The `rest.startswith(...)` chain that picks label, palette and range;
`season` is the month-derived season string, `raw` the full feature name
(used by the fall-through default). -/
def semForRest (raw rest season : String) : Semantics :=
  if pyStartsWith rest "ndvi_mean" then
    ⟨"Vegetationsdichte (" ++ season ++ ", NDVI)", NDVI_PALETTE, RANGES_ndvi_mean⟩
  else if pyStartsWith rest "ndwi_mean" then
    ⟨"Feuchtigkeit (" ++ season ++ ", NDWI)", NDWI_PALETTE, RANGES_ndwi_mean⟩
  else if pyStartsWith rest "moran_ndvi" then
    ⟨"Vegetations-Cluster (" ++ season ++ ", Moran)", MORAN_PALETTE, RANGES_moran⟩
  else if pyStartsWith rest "moran_ndwi" then
    ⟨"Feuchtigkeits-Cluster (" ++ season ++ ", Moran)", MORAN_PALETTE, RANGES_moran⟩
  else if pyStartsWith rest "geary_ndvi" then
    ⟨"Vegetations-Heterogenität (" ++ season ++ ", Geary)", GEARY_PALETTE, RANGES_geary⟩
  else if pyStartsWith rest "geary_ndwi" then
    ⟨"Feuchtigkeits-Heterogenität (" ++ season ++ ", Geary)", GEARY_PALETTE, RANGES_geary⟩
  else grayFallback raw

/-- `infer_semantics(raw_feature)`. -/
def infer_semantics (raw : String) : Semantics :=
  if !(pyStartsWith raw "m") || !(pyContainsChar raw '_') then grayFallback raw
  else
    match pyInt (pySlice raw 1 3) with
    | none => grayFallback raw
    | some month =>
        semForRest raw (pyDropFrom raw 4)
          (if month = 7 ∨ month = 8 ∨ month = 9 then "Sommer"
           else if month = 10 ∨ month = 11 ∨ month = 12 then "Herbst"
           else "Saison")

lemma semForRest_shape (raw rest season : String) :
    (semForRest raw rest season).palette.length = 3 ∧
    (semForRest raw rest season).range.length = 2 := by
  unfold semForRest
  split
  · exact ⟨rfl, rfl⟩
  · split
    · exact ⟨rfl, rfl⟩
    · split
      · exact ⟨rfl, rfl⟩
      · split
        · exact ⟨rfl, rfl⟩
        · split
          · exact ⟨rfl, rfl⟩
          · split
            · exact ⟨rfl, rfl⟩
            · exact ⟨rfl, rfl⟩

end TreeExplain

/-- C10: `infer_semantics` is total: for every input string it returns a
record with a 3-stop palette and a 2-element range; and for names that
begin with `m`, contain an underscore, but have a slice `[1:3]` that is
not a valid Python integer literal, it returns the neutral gray fallback
(label = raw name, gray palette, range `[0.0, 1.0]`) instead of raising. -/
theorem C10_infer_semantics_total (s : String) :
    ((TreeExplain.infer_semantics s).palette.length = 3 ∧
     (TreeExplain.infer_semantics s).range.length = 2) ∧
    (TreeExplain.pyStartsWith s "m" = true → TreeExplain.pyContainsChar s '_' = true →
      TreeExplain.pyInt (TreeExplain.pySlice s 1 3) = none →
      TreeExplain.infer_semantics s = TreeExplain.grayFallback s) := by
  constructor
  · unfold TreeExplain.infer_semantics
    split
    · exact ⟨rfl, rfl⟩
    · split
      · exact ⟨rfl, rfl⟩
      · exact TreeExplain.semForRest_shape _ _ _
  · intro h1 h2 h3
    unfold TreeExplain.infer_semantics
    rw [h1, h2, h3]
    simp

/-- C10 witness: the name `mxy_ndvi_mean` starts with `m`, contains `_`,
its `[1:3]` slice `xy` is not an integer, and the result is the gray
fallback record. -/
theorem C10_infer_semantics_total_witness :
    TreeExplain.pyStartsWith "mxy_ndvi_mean" "m" = true ∧
    TreeExplain.pyContainsChar "mxy_ndvi_mean" '_' = true ∧
    TreeExplain.pyInt (TreeExplain.pySlice "mxy_ndvi_mean" 1 3) = none ∧
    TreeExplain.infer_semantics "mxy_ndvi_mean" =
      TreeExplain.grayFallback "mxy_ndvi_mean" :=
  ⟨by decide, by decide, by decide,
    (C10_infer_semantics_total "mxy_ndvi_mean").2 (by decide) (by decide) (by decide)⟩

namespace FetchInat

/-!
Embedding of the pagination loop of
`pipe/fetch_and_merge_inat.py :: fetch_inat_species`.

The HTTP layer is abstracted as an oracle `resp : Nat → Response α`
giving, per page number, the status code and the parsed `results` list
the platform would return for that page.  `time.sleep` has no observable
effect in the model.  The loop is `for page in range(1, max_pages + 1)`:
on status 429 it sleeps and `continue`s (next loop iteration), on any
other non-200 status it breaks, on an empty result list it breaks, and
otherwise it extends the accumulator.  The function returns the ordered
trace of requested page numbers together with the accumulated results.
-/

structure Response (α : Type) where
  status : Nat
  results : List α

def fetchGo {α : Type} (resp : Nat → Response α) : Nat → Nat → List Nat × List α
  | _, 0 => ([], [])
  | page, fuel + 1 =>
      if (resp page).status = 429 then
        let nxt := fetchGo resp (page + 1) fuel
        (page :: nxt.1, nxt.2)
      else if (resp page).status ≠ 200 then ([page], [])
      else if (resp page).results.isEmpty then ([page], [])
      else
        let nxt := fetchGo resp (page + 1) fuel
        (page :: nxt.1, (resp page).results ++ nxt.2)

/-- `fetch_inat_species(..., max_pages=50)`: pages start at 1. -/
def fetch_inat_species {α : Type} (resp : Nat → Response α) (maxPages : Nat) :
    List Nat × List α :=
  fetchGo resp 1 maxPages

/-- Whether a page's response contributes results: status 200 and a
non-empty result list. -/
def contributes {α : Type} (resp : Nat → Response α) (p : Nat) : Bool :=
  (resp p).status == 200 && !(resp p).results.isEmpty

lemma fetchGo_spec {α : Type} (resp : Nat → Response α) (fuel : Nat) :
    ∀ page : Nat,
      (∃ k, (fetchGo resp page fuel).1 = (List.range k).map (· + page)) ∧
      (fetchGo resp page fuel).2 =
        ((fetchGo resp page fuel).1.filter (contributes resp)).flatMap
          (fun p => (resp p).results) := by
  induction fuel with
  | zero => exact fun page => ⟨⟨0, by simp [fetchGo]⟩, by simp [fetchGo]⟩
  | succ fuel ih =>
      intro page
      obtain ⟨⟨k, hk⟩, hres⟩ := ih (page + 1)
      have hcons : page :: (List.range k).map (· + (page + 1)) =
          (List.range (k + 1)).map (· + page) := by
        rw [List.range_succ_eq_map, List.map_cons, List.map_map]
        refine congrArg₂ List.cons (by omega) (List.map_congr_left ?_)
        intro i _
        simp only [Function.comp_apply]
        omega
      have hone : [page] = (List.range 1).map (· + page) := by
        rw [show List.range 1 = [0] from rfl]
        simp
      by_cases h429 : (resp page).status = 429
      · have hstep : fetchGo resp page (fuel + 1) =
            (page :: (fetchGo resp (page + 1) fuel).1,
              (fetchGo resp (page + 1) fuel).2) := by
          simp [fetchGo, h429]
        have hc : contributes resp page = false := by
          simp [contributes, h429]
        refine ⟨⟨k + 1, ?_⟩, ?_⟩
        · rw [hstep]
          show page :: (fetchGo resp (page + 1) fuel).1 = _
          rw [hk]
          exact hcons
        · rw [hstep]
          show (fetchGo resp (page + 1) fuel).2 = _
          simp only [List.filter_cons, hc, cond_false, Bool.false_eq_true, if_false]
          exact hres
      · by_cases hok : (resp page).status = 200
        · by_cases hemp : (resp page).results.isEmpty
          · have hstep : fetchGo resp page (fuel + 1) = ([page], []) := by
              simp [fetchGo, h429, hok, hemp]
            have hc : contributes resp page = false := by
              simp [contributes, hemp]
            refine ⟨⟨1, ?_⟩, ?_⟩
            · rw [hstep]; exact hone
            · rw [hstep]
              simp [List.filter_cons, hc]
          · have hstep : fetchGo resp page (fuel + 1) =
                (page :: (fetchGo resp (page + 1) fuel).1,
                  (resp page).results ++ (fetchGo resp (page + 1) fuel).2) := by
              simp [fetchGo, h429, hok, hemp]
            have hc : contributes resp page = true := by
              simp [contributes, hok, hemp]
            refine ⟨⟨k + 1, ?_⟩, ?_⟩
            · rw [hstep]
              show page :: (fetchGo resp (page + 1) fuel).1 = _
              rw [hk]
              exact hcons
            · rw [hstep]
              show (resp page).results ++ (fetchGo resp (page + 1) fuel).2 = _
              simp only [List.filter_cons, hc, cond_true, if_true, List.flatMap_cons]
              exact congrArg (fun l => (resp page).results ++ l) hres
        · have hstep : fetchGo resp page (fuel + 1) = ([page], []) := by
            simp [fetchGo, h429, hok]
          have hc : contributes resp page = false := by
            simp [contributes, hok]
          refine ⟨⟨1, ?_⟩, ?_⟩
          · rw [hstep]; exact hone
          · rw [hstep]
            simp [List.filter_cons, hc]

end FetchInat

/-- C1 counterexample: with an oracle answering page 1 with 200/[10],
page 2 with 429 (results [20] would be available on a retry), page 3 with
200/[30] and every later page with 200/[], the fetcher requests page 2
exactly once — it does not retry it after the 30-second sleep — and the
rate-limited page's results are missing from the output. -/
theorem C1_rate_limit_counterexample :
    FetchInat.fetch_inat_species
        (fun p => if p = 1 then ⟨200, [(10 : ℤ)]⟩
                  else if p = 2 then ⟨429, [20]⟩
                  else if p = 3 then ⟨200, [30]⟩
                  else ⟨200, []⟩) 50 = ([1, 2, 3, 4], [10, 30]) ∧
    List.count 2 [1, 2, 3, 4] = 1 ∧ (20 : ℤ) ∉ [(10 : ℤ), 30] := by
  refine ⟨by decide, by decide, by decide⟩

/-- C1 (amended): on an HTTP 429 response the fetcher sleeps 30 seconds
and then proceeds to the *next* page number — every run requests a
consecutive block of pages 1..k each exactly once, and the accumulated
results are exactly the concatenation of the results of the requested
pages that answered 200 with a non-empty list, so a 429 page's results
are skipped, not retried. -/
theorem C1_rate_limit_behavior {α : Type} (resp : Nat → FetchInat.Response α)
    (maxPages : Nat) :
    (∃ k, (FetchInat.fetch_inat_species resp maxPages).1 =
        (List.range k).map (· + 1)) ∧
    (FetchInat.fetch_inat_species resp maxPages).2 =
      ((FetchInat.fetch_inat_species resp maxPages).1.filter
          (FetchInat.contributes resp)).flatMap (fun p => (resp p).results) :=
  FetchInat.fetchGo_spec resp maxPages 1

namespace Region

/-!
Embedding of `utils/region.py :: normalize_region`.

A config is the parts of the YAML document the function touches.  A bbox
is a list of float cells.  `pyproj` is abstracted: `havePyproj` is the
flag for the library being importable and `trans crs b0 b1` models
`Transformer.transform`, with
`none` standing for a raised exception (the source catches it and stores
`None` in `bbox_utm`).  Raised `ValueError`s become `Except.error`.
`bbox_utm : Option _` with `none` covers both the absent key and Python
`None`.
-/

structure RegionCfg where
  bbox_wgs84 : Option (List FloatVal)
  utm_crs : Option String
  bbox_utm : Option (List FloatVal)
deriving DecidableEq

structure GeeCfg where
  crs : Option String
  region_bbox : Option (List FloatVal)
  region_bbox_utm : Option (List FloatVal)
deriving DecidableEq

structure Cfg where
  region : Option RegionCfg
  gee : Option GeeCfg
deriving DecidableEq

/-- Python string truthiness: `None` and `""` are falsy. -/
def truthyStr : Option String → Option String
  | some s => if s = "" then none else some s
  | none => none

/-- `normalize_region(cfg)`; `verbose` printing is untracked. -/
def normalize_region (havePyproj : Bool)
    (trans : String → FloatVal → FloatVal → Option (FloatVal × FloatVal))
    (cfg : Cfg) : Except String Cfg :=
  match cfg.region with
  | none => Except.error "cfg-region fehlt"
  | some region =>
      match region.bbox_wgs84 with
      | none => Except.error "Ungueltige region.bbox_wgs84"
      | some bbox =>
          if bbox.isEmpty || bbox.length != 4 then
            Except.error "Ungueltige region.bbox_wgs84"
          else
            let utm_crs :=
              ((truthyStr region.utm_crs).orElse
                (fun _ => truthyStr (cfg.gee.bind GeeCfg.crs))).getD "EPSG:32633"
            let bbox_utm :=
              if havePyproj then
                match trans utm_crs ((bbox.get? 0).getD none) ((bbox.get? 1).getD none),
                      trans utm_crs ((bbox.get? 2).getD none) ((bbox.get? 3).getD none) with
                | some (x0, y0), some (x1, y1) => some [x0, y0, x1, y1]
                | _, _ => none
              else none
            let region' : RegionCfg :=
              ⟨some bbox, some utm_crs, bbox_utm⟩
            let gee' : GeeCfg :=
              ⟨some utm_crs, some bbox, bbox_utm⟩
            Except.ok ⟨some region', some gee'⟩

/-- The invariant the spec states for `bbox_wgs84`: exactly 4 finite
values with min < max on each axis (bbox order `[w, s, e, n]`). -/
def bboxInvariant (b : List FloatVal) : Prop :=
  b.length = 4 ∧ (∀ v ∈ b, v.isSome) ∧
  (∃ w s e n : ℚ, b = [some w, some s, some e, some n] ∧ w < e ∧ s < n)

end Region

/-- C3 counterexample: `normalize_region` accepts (returns successfully,
raising no bbox validation error) a region whose 4-element bbox contains a
non-finite value, and likewise one whose mins are not below its maxes —
both violate the invariant the claim says is enforced. -/
theorem C3_normalize_region_counterexample :
    (Region.normalize_region false (fun _ _ _ => none)
        ⟨some ⟨some [none, some 0, some 1, some 2], none, none⟩, none⟩).isOk = true ∧
    (Region.normalize_region false (fun _ _ _ => none)
        ⟨some ⟨some [some 2, some 2, some 1, some 1], none, none⟩, none⟩).isOk = true ∧
    ¬ Region.bboxInvariant [none, some 0, some 1, some 2] ∧
    ¬ Region.bboxInvariant [some 2, some 2, some 1, some 1] := by
  refine ⟨rfl, rfl, ?_, ?_⟩
  · rintro ⟨-, hall, -⟩
    exact absurd (hall none (by simp)) (by simp)
  · rintro ⟨-, -, w, s, e, n, hb, hw, -⟩
    have h : (2 : ℚ) = w ∧ (2 : ℚ) = s ∧ (1 : ℚ) = e ∧ (1 : ℚ) = n := by
      simpa using hb
    rw [← h.1, ← h.2.2.1] at hw
    norm_num at hw

/-- C3 (amended): `normalize_region` raises the bbox validation error
exactly when the active region is missing, `bbox_wgs84` is absent, or it
is not a (non-empty) 4-element list; finiteness and min < max per axis
are not checked, and when the invariant holds (so the list has 4
entries) no error is raised. -/
theorem C3_normalize_region_validation (havePyproj : Bool)
    (trans : String → FloatVal → FloatVal → Option (FloatVal × FloatVal))
    (cfg : Region.Cfg) :
    (Region.normalize_region havePyproj trans cfg).isOk = true ↔
      ∃ r, cfg.region = some r ∧ ∃ b, r.bbox_wgs84 = some b ∧ b.length = 4 := by
  unfold Region.normalize_region
  cases hr : cfg.region with
  | none => simp [Except.isOk, Except.toBool]
  | some region =>
      cases hb : region.bbox_wgs84 with
      | none => simp [hb, Except.isOk, Except.toBool]
      | some bbox =>
          by_cases hlen : bbox.length = 4
          · have hnil : bbox ≠ [] := by
              intro hn
              rw [hn] at hlen
              simp at hlen
            simp [hb, hnil, hlen, Except.isOk, Except.toBool]
          · simp [hb, hlen, Except.isOk, Except.toBool]

/-- C3 witness (for the amended iff, instantiated left-to-right): a
well-formed 4-element bbox is accepted. -/
theorem C3_normalize_region_validation_witness :
    (Region.normalize_region false (fun _ _ _ => none)
        ⟨some ⟨some [some 0, some 0, some 1, some 1], none, none⟩, none⟩).isOk = true :=
  (C3_normalize_region_validation false (fun _ _ _ => none)
      ⟨some ⟨some [some 0, some 0, some 1, some 1], none, none⟩, none⟩).mpr
    ⟨⟨some [some 0, some 0, some 1, some 1], none, none⟩, rfl,
      [some 0, some 0, some 1, some 1], rfl, rfl⟩

namespace TrainModel

/-!
Embedding of the label/scale portion of
`pipe/train_pilz_model.py :: train_pilz_model` and
`pipe/train_pilz_model_monthly.py :: train_pilz_model_monthly`.

`y` is the binary label column (`true` = target = 1, `false` = contrast =
0).  `train_test_split(..., test_size=0.25, random_state=42, stratify=y)`
is abstracted as a selection predicate `trainSel` on row indices (for a
table of n rows sklearn puts `n - ceil(0.25*n)` rows in the training
split); feature columns and sample weights do not influence the scale and
are not tracked.  Both trainers return here the `scale_pos_weight` value
handed to `xgb.XGBClassifier` together with the split label columns.
-/

def posCount (y : List Bool) : Nat := y.count true

def negCount (y : List Bool) : Nat := y.count false

def selectIdx (y : List Bool) (sel : Nat → Bool) : List Bool :=
  ((List.range y.length).filter sel).map (fun i => y.getD i false)

/-- `train_pilz_model`: `pos`/`neg`/`scale` are computed from the full
label column, then the split happens. -/
def train_pilz_model (y : List Bool) (trainSel : Nat → Bool) :
    ℚ × List Bool × List Bool :=
  let pos := posCount y
  let neg := negCount y
  let scale := (neg : ℚ) / (pos : ℚ)
  let y_train := selectIdx y trainSel
  let y_test := selectIdx y (fun i => !(trainSel i))
  (scale, y_train, y_test)

/-- `train_pilz_model_monthly`: the split happens first, but `pos`/`neg`
are still taken from the full label column `y`. -/
def train_pilz_model_monthly (y : List Bool) (trainSel : Nat → Bool) :
    ℚ × List Bool × List Bool :=
  let y_train := selectIdx y trainSel
  let y_test := selectIdx y (fun i => !(trainSel i))
  let pos := posCount y
  let neg := negCount y
  let scale := (neg : ℚ) / (pos : ℚ)
  (scale, y_train, y_test)

/-- The concrete label column for the counterexample: 3 positives and 5
negatives, 8 rows, so the training split holds 8 - ceil(0.25*8) = 6
rows. -/
def yCx : List Bool := [true, true, true, false, false, false, false, false]

end TrainModel

/-- C2 counterexample: on a table of 3 positive and 5 negative rows both
trainers pass scale_pos_weight = 5/3 (the full-table ratio), yet no
6-row training subset of that table (p ≤ 3 positives, q ≤ 5 negatives,
p + q = 6) has q/p = 5/3 — so the value cannot equal the ratio over the
75% training split, whatever rows the stratified split picks. -/
theorem C2_scale_pos_weight_counterexample :
    (TrainModel.train_pilz_model TrainModel.yCx (fun i => decide (i < 6))).1 = 5 / 3 ∧
    (TrainModel.train_pilz_model_monthly TrainModel.yCx (fun i => decide (i < 6))).1 = 5 / 3 ∧
    ((List.range 4).all fun p => (List.range 6).all fun q =>
        decide (p + q ≠ 6) ||
          decide ((p, q) = (1, 5) ∨ (p, q) = (2, 4) ∨ (p, q) = (3, 3))) = true ∧
    ((5 : ℚ) / 1 ≠ 5 / 3) ∧ ((4 : ℚ) / 2 ≠ 5 / 3) ∧ ((3 : ℚ) / 3 ≠ 5 / 3) := by
  have h5 : TrainModel.negCount TrainModel.yCx = 5 := rfl
  have h3 : TrainModel.posCount TrainModel.yCx = 3 := rfl
  refine ⟨?_, ?_, by decide, by norm_num, by norm_num, by norm_num⟩
  · show ((TrainModel.negCount TrainModel.yCx : ℚ) /
        (TrainModel.posCount TrainModel.yCx : ℚ)) = 5 / 3
    rw [h5, h3]
    norm_num
  · show ((TrainModel.negCount TrainModel.yCx : ℚ) /
        (TrainModel.posCount TrainModel.yCx : ℚ)) = 5 / 3
    rw [h5, h3]
    norm_num

/-- C2 (amended): in both trainers the scale_pos_weight passed to the
gradient-boosted classifier equals #negative / #positive computed over
the entire input feature table (all rows, before any splitting), and is
therefore independent of which rows the train/test split selects. -/
theorem C2_scale_pos_weight_full_table (y : List Bool) (sel sel' : Nat → Bool) :
    (TrainModel.train_pilz_model y sel).1 =
        (TrainModel.negCount y : ℚ) / (TrainModel.posCount y : ℚ) ∧
    (TrainModel.train_pilz_model_monthly y sel).1 =
        (TrainModel.negCount y : ℚ) / (TrainModel.posCount y : ℚ) ∧
    (TrainModel.train_pilz_model y sel).1 = (TrainModel.train_pilz_model y sel').1 ∧
    (TrainModel.train_pilz_model_monthly y sel).1 =
        (TrainModel.train_pilz_model_monthly y sel').1 :=
  ⟨rfl, rfl, rfl, rfl⟩

namespace PointClimatology

/-!
Embedding of `pipe/build_point_climatology_table.py`.

The filesystem is abstracted as `avail : Nat → Option Nat`: `avail m =
some b` means a climatology GeoTIFF exists for month `m` (in one of the
three probed locations) and has `b` bands; `none` means no file (the
source merely warns).  `load_rasters` returns the discovered month list
(with band counts) and raises only when nothing was found.  Sampling
values is irrelevant to the column-count claim; `featureKeys` is the list
of `m<MM>_<stat>` keys that `build_feature_table` adds to the table, in
insertion order, one per discovered month and band.
-/

def band_names_12 : List String :=
  ["ndvi_median", "ndvi_mean", "ndvi_std", "ndvi_coverage",
   "ndwi_median", "ndwi_mean", "ndwi_std", "ndwi_coverage",
   "moran_ndvi", "geary_ndvi", "moran_ndwi", "geary_ndwi"]

def band_names_8 : List String :=
  ["ndvi_median", "ndvi_mean", "ndvi_std", "ndvi_coverage",
   "ndwi_median", "ndwi_mean", "ndwi_std", "ndwi_coverage"]

/-- `infer_band_names(n_bands)`. -/
def infer_band_names (n : Nat) : List String :=
  if n = 12 then band_names_12
  else if n = 8 then band_names_8
  else (List.range n).map (fun i => "band" ++ toString (i + 1))

/-- Python `f"{m:02d}"` for the month numbers used here. -/
def pad2 (m : Nat) : String := if m < 10 then "0" ++ toString m else toString m

/-- The column key `f"m{month:02d}_{band_name}"`. -/
def colName (m : Nat) (nm : String) : String := "m" ++ pad2 m ++ "_" ++ nm

/-- `range(1, 13)`: the months probed by `load_rasters`. -/
def monthsList : List Nat := (List.range 12).map (· + 1)

def findRaster (avail : Nat → Option Nat) (m : Nat) : Option (Nat × Nat) :=
  (avail m).map (fun b => (m, b))

/-- `load_rasters`: collect the months with a discovered file; raise
`FileNotFoundError` only when the collection is empty. -/
def load_rasters (avail : Nat → Option Nat) : Except String (List (Nat × Nat)) :=
  let rasters := monthsList.filterMap (findRaster avail)
  if rasters.isEmpty then Except.error "Keine CLIMATOLOGY TIFFs gefunden"
  else Except.ok rasters

/-- The keys `sample_month` produces for one month's raster. -/
def monthKeys (mb : Nat × Nat) : List String :=
  (infer_band_names mb.2).map (colName mb.1)

/-- All feature columns `build_feature_table` appends, in order. -/
def featureKeys (rasters : List (Nat × Nat)) : List String :=
  rasters.flatMap monthKeys

lemma length_infer_band_names (n : Nat) : (infer_band_names n).length = n := by
  unfold infer_band_names
  by_cases h12 : n = 12
  · subst h12; rfl
  · by_cases h8 : n = 8
    · subst h8; simp [h12, band_names_8]
    · simp [h12, h8]

lemma length_featureKeys (rasters : List (Nat × Nat)) :
    (featureKeys rasters).length = (rasters.map (fun mb => mb.2)).sum := by
  unfold featureKeys monthKeys
  rw [List.length_flatMap]
  refine congrArg List.sum (List.map_congr_left ?_)
  intro mb _
  simp [length_infer_band_names]

lemma pad2_facts :
    ∀ m ∈ monthsList, (pad2 m).data.length = 2 ∧
      ∀ m' ∈ monthsList, pad2 m = pad2 m' → m = m' := by decide

lemma colName_inj {m m' : Nat} {nm nm' : String} (hm : m ∈ monthsList)
    (hm' : m' ∈ monthsList) (h : colName m nm = colName m' nm') :
    m = m' ∧ nm = nm' := by
  have hd := congrArg String.data h
  simp only [colName, String.data_append] at hd
  have hd2 : (pad2 m).data ++ ('_' :: nm.data) = (pad2 m').data ++ ('_' :: nm'.data) := by
    have : ('m' :: ((pad2 m).data ++ ('_' :: nm.data))) =
        ('m' :: ((pad2 m').data ++ ('_' :: nm'.data))) := by
      simpa using hd
    exact (List.cons.injEq _ _ _ _ ▸ this).2
  have hlen : (pad2 m).data.length = (pad2 m').data.length := by
    rw [(pad2_facts m hm).1, (pad2_facts m' hm').1]
  obtain ⟨hpad, htail⟩ := List.append_inj hd2 hlen
  refine ⟨(pad2_facts m hm).2 m' hm' (String.ext hpad), String.ext ?_⟩
  exact (List.cons.injEq _ _ _ _ ▸ htail).2

lemma colName_name_inj (m : Nat) {nm nm' : String}
    (h : colName m nm = colName m nm') : nm = nm' := by
  have hd := congrArg String.data h
  simp only [colName, String.data_append] at hd
  have hd2 : (pad2 m).data ++ ('_' :: nm.data) = (pad2 m).data ++ ('_' :: nm'.data) := by
    have : ('m' :: ((pad2 m).data ++ ('_' :: nm.data))) =
        ('m' :: ((pad2 m).data ++ ('_' :: nm'.data))) := by
      simpa using hd
    exact (List.cons.injEq _ _ _ _ ▸ this).2
  have := List.append_cancel_left hd2
  exact String.ext (List.cons.injEq _ _ _ _ ▸ this).2

lemma nodup_monthKeys {m b : Nat} (hb : b = 8 ∨ b = 12) :
    (monthKeys (m, b)).Nodup := by
  refine List.Nodup.map_on (fun x _ y _ hxy => colName_name_inj m hxy) ?_
  rcases hb with h | h <;> subst h
  · exact (by decide : (infer_band_names 8).Nodup)
  · exact (by decide : (infer_band_names 12).Nodup)

lemma rasters_of_load {avail : Nat → Option Nat} {rasters : List (Nat × Nat)}
    (hload : load_rasters avail = Except.ok rasters) :
    rasters = monthsList.filterMap (findRaster avail) := by
  simp only [load_rasters] at hload
  split at hload
  · exact absurd hload (by simp)
  · injection hload with h
    exact h.symm

lemma mem_month_of_load {avail : Nat → Option Nat} {rasters : List (Nat × Nat)}
    (hload : load_rasters avail = Except.ok rasters) :
    ∀ mb ∈ rasters, mb.1 ∈ monthsList := by
  rw [rasters_of_load hload]
  intro mb hmb
  obtain ⟨m, hm, hf⟩ := List.mem_filterMap.mp hmb
  unfold findRaster at hf
  cases ha : avail m with
  | none =>
      rw [ha] at hf
      exact Option.noConfusion hf
  | some b =>
      rw [ha] at hf
      have : (m, b) = mb := by injection hf
      rw [← this]
      exact hm

lemma nodup_featureKeys {avail : Nat → Option Nat} {rasters : List (Nat × Nat)}
    (hload : load_rasters avail = Except.ok rasters)
    (hb : ∀ mb ∈ rasters, mb.2 = 8 ∨ mb.2 = 12) :
    (featureKeys rasters).Nodup := by
  rw [featureKeys, List.nodup_flatMap]
  constructor
  · intro mb hmb
    obtain ⟨m, b⟩ := mb
    exact nodup_monthKeys (hb _ hmb)
  · have hmem := mem_month_of_load hload
    rw [rasters_of_load hload]
    have hpw : monthsList.Pairwise
        (fun a b => a ≠ b ∧ a ∈ monthsList ∧ b ∈ monthsList) := by decide
    refine hpw.filterMap (findRaster avail) ?_
    intro a a' ⟨hne, ha, ha'⟩ mb hfa mb' hfa'
    have hfst : mb.1 = a := by
      unfold findRaster at hfa
      cases hav : avail a with
      | none =>
          rw [hav] at hfa
          exact Option.noConfusion hfa
      | some b =>
          rw [hav] at hfa
          have : (a, b) = mb := by injection hfa
          rw [← this]
    have hfst' : mb'.1 = a' := by
      unfold findRaster at hfa'
      cases hav : avail a' with
      | none =>
          rw [hav] at hfa'
          exact Option.noConfusion hfa'
      | some b =>
          rw [hav] at hfa'
          have : (a', b) = mb' := by injection hfa'
          rw [← this]
    intro key hkey hkey'
    obtain ⟨nm, _, hnm⟩ := List.mem_map.mp hkey
    obtain ⟨nm', _, hnm'⟩ := List.mem_map.mp hkey'
    have : mb.1 = mb'.1 ∧ nm = nm' := by
      refine colName_inj ?_ ?_ (hnm.trans hnm'.symm)
      · rw [hfst]; exact ha
      · rw [hfst']; exact ha'
    exact hne (by rw [← hfst, ← hfst', this.1])

lemma load_all_b {avail : Nat → Option Nat} {rasters : List (Nat × Nat)} {B : Nat}
    (hload : load_rasters avail = Except.ok rasters)
    (hall : ∀ m ∈ monthsList, avail m = some B) :
    rasters.map (fun mb => mb.2) = List.replicate 12 B := by
  rw [rasters_of_load hload]
  have : ∀ l : List Nat, (∀ m ∈ l, avail m = some B) →
      (l.filterMap (findRaster avail)).map (fun mb => mb.2) =
        List.replicate l.length B := by
    intro l
    induction l with
    | nil => intro _; rfl
    | cons m rest ih =>
        intro h
        rw [List.filterMap_cons]
        rw [show findRaster avail m = some (m, B) by
          unfold findRaster; rw [h m (List.mem_cons_self _ _)]; rfl]
        simp only [List.map_cons, List.replicate, List.length_cons]
        exact congrArg (List.cons B) (ih (fun x hx => h x (List.mem_cons_of_mem _ hx)))
  rw [this monthsList hall]
  rfl

end PointClimatology

/-- C4 counterexample: when only month 01's climatology raster exists (a
12-band one), `load_rasters` still succeeds and the feature-table builder
adds 12 columns, not 12 × 12 = 144, so the claimed invariant fails for
that run. -/
theorem C4_feature_columns_counterexample :
    PointClimatology.load_rasters (fun m => if m = 1 then some 12 else none) =
      Except.ok [(1, 12)] ∧
    (PointClimatology.featureKeys [(1, 12)]).length = 12 ∧
    (12 : Nat) ≠ 12 * 12 := by
  refine ⟨rfl, by decide, by decide⟩

/-- C4 (amended): the builder adds one `m<MM>_<stat>` column per
discovered month and per band of that month's raster — the number of
columns is the sum of the discovered rasters' band counts (all keys
distinct for 8/12-band rasters) — and it equals 12 × B exactly when all
12 months are discovered with B bands each. -/
theorem C4_feature_columns (avail : Nat → Option Nat) (rasters : List (Nat × Nat))
    (hload : PointClimatology.load_rasters avail = Except.ok rasters) :
    (PointClimatology.featureKeys rasters).length =
        (rasters.map (fun mb => mb.2)).sum ∧
    ((∀ mb ∈ rasters, mb.2 = 8 ∨ mb.2 = 12) →
      (PointClimatology.featureKeys rasters).Nodup) ∧
    (∀ B : Nat, (∀ m ∈ PointClimatology.monthsList, avail m = some B) →
      (PointClimatology.featureKeys rasters).length = 12 * B) := by
  refine ⟨PointClimatology.length_featureKeys rasters,
    fun hb => PointClimatology.nodup_featureKeys hload hb, ?_⟩
  intro B hall
  rw [PointClimatology.length_featureKeys rasters,
    PointClimatology.load_all_b hload hall]
  simp only [List.sum_replicate, smul_eq_mul]

/-- C4 witness: with every month present as a 12-band raster the builder
adds 12 × 12 = 144 pairwise-distinct columns. -/
theorem C4_feature_columns_witness :
    (PointClimatology.featureKeys
        (PointClimatology.monthsList.map (fun m => (m, 12)))).length = 12 * 12 ∧
    (PointClimatology.featureKeys
        (PointClimatology.monthsList.map (fun m => (m, 12)))).Nodup := by
  have h := C4_feature_columns (fun _ => some 12)
      (PointClimatology.monthsList.map (fun m => (m, 12))) rfl
  exact ⟨h.2.2 12 (by decide), h.2.1 (by decide)⟩

namespace TrendMap

/-!
Embedding of the slope mode of `analyse/trend_map.py`.

Each yearly suitability raster contributes a value band and a quality
band, modelled as pixel functions.  `is_real = mask >= threshold` (false
when the mask is NaN), `vals = np.where(is_real, vals, nan)`, and in
slope mode a pixel gets `linregress` of its real (year, value) pairs when
it has at least 3 of them, and stays at the NaN the output was
initialised to otherwise.  `trend` below is the per-pixel content of the
written single-band raster.
-/

structure YearLayer where
  year : ℤ
  vals : Nat → Nat → FloatVal
  mask : Nat → Nat → FloatVal

/-- `is_real = mask >= args.threshold` (NaN compares false). -/
def isReal (thr : ℚ) (L : YearLayer) (i j : Nat) : Bool :=
  match L.mask i j with
  | some m => decide (thr ≤ m)
  | none => false

/-- The masked stack value `np.where(is_real, vals, np.nan)`. -/
def stackVal (thr : ℚ) (L : YearLayer) (i j : Nat) : FloatVal :=
  if isReal thr L i j then L.vals i j else none

/-- The `(t[valid], r[valid])` pairs of a pixel: years whose masked stack
value is finite. -/
def validPairs (thr : ℚ) (layers : List YearLayer) (i j : Nat) : List (ℤ × ℚ) :=
  layers.filterMap (fun L => (stackVal thr L i j).map (fun v => (L.year, v)))

/-- Least-squares slope, as `scipy.stats.linregress` computes it. -/
def slopeOf (pts : List (ℤ × ℚ)) : ℚ :=
  let n : ℚ := pts.length
  let st : ℚ := (pts.map (fun p => (p.1 : ℚ))).sum
  let sr : ℚ := (pts.map Prod.snd).sum
  let str : ℚ := (pts.map (fun p => (p.1 : ℚ) * p.2)).sum
  let stt : ℚ := (pts.map (fun p => (p.1 : ℚ) * (p.1 : ℚ))).sum
  (n * str - st * sr) / (n * stt - st * st)

/-- The slope-mode output at pixel `(i, j)`: NaN (as initialised) when
fewer than 3 real years, else the regression slope. -/
def trend (thr : ℚ) (layers : List YearLayer) (i j : Nat) : FloatVal :=
  let pts := validPairs thr layers i j
  if pts.length < 3 then none else some (slopeOf pts)

/-- The number of years that are real (QA mask passes the threshold) and
finite at a pixel. -/
def realYears (thr : ℚ) (layers : List YearLayer) (i j : Nat) : Nat :=
  (layers.filter (fun L => isReal thr L i j && (L.vals i j).isSome)).length

lemma validPairs_length (thr : ℚ) (layers : List YearLayer) (i j : Nat) :
    (validPairs thr layers i j).length = realYears thr layers i j := by
  unfold validPairs realYears
  induction layers with
  | nil => rfl
  | cons L rest ih =>
      rw [List.filterMap_cons, List.filter_cons]
      by_cases hr : isReal thr L i j
      · cases hv : L.vals i j with
        | none =>
            have hsv : stackVal thr L i j = none := by simp [stackVal, hr, hv]
            simp [hsv, hr, hv, ih]
        | some v =>
            have hsv : stackVal thr L i j = some v := by simp [stackVal, hr, hv]
            simp [hsv, hr, hv, ih]
      · have hsv : stackVal thr L i j = none := by simp [stackVal, hr]
        simp [hsv, hr, ih]

end TrendMap

/-- C8: in slope mode, every pixel with real (mask ≥ threshold and
finite) suitability data in fewer than 3 years is left NaN in the trend
output, whatever the data at any other pixel looks like (the inputs
`layers` are unconstrained away from pixel `(i, j)`). -/
theorem C8_slope_needs_three_years (thr : ℚ) (layers : List TrendMap.YearLayer)
    (i j : Nat) (h : TrendMap.realYears thr layers i j < 3) :
    TrendMap.trend thr layers i j = none := by
  unfold TrendMap.trend
  rw [if_pos]
  rw [TrendMap.validPairs_length]
  exact h

/-- C8 witness: with only two yearly layers (all pixels real and finite,
threshold 1) every pixel has fewer than 3 real years, so the trend output
is NaN. -/
theorem C8_slope_needs_three_years_witness :
    TrendMap.realYears 1
        [⟨2017, fun _ _ => some 1, fun _ _ => some 1⟩,
         ⟨2018, fun _ _ => some 2, fun _ _ => some 1⟩] 0 0 < 3 ∧
    TrendMap.trend 1
        [⟨2017, fun _ _ => some 1, fun _ _ => some 1⟩,
         ⟨2018, fun _ _ => some 2, fun _ _ => some 1⟩] 0 0 = none :=
  ⟨by decide, C8_slope_needs_three_years 1 _ 0 0 (by decide)⟩

namespace Climatology

/-!
Embedding of the per-pixel coverage computation of
`pipe/build_monthly_climatology_tiled.py`.

For one pixel of one tile, each discovered yearly raster contributes a
raw band value together with that source's declared NoData value; the
source replaces values equal to NoData by NaN (`np.where(ndvi == nodata,
np.nan, ndvi)`; a NaN raw value never equals NoData and stays NaN), the
stack is the list of these masked values (one per discovered year), and
the coverage band is `np.isfinite(stack).sum(axis=0) / stack.shape[0]`,
written through `clean = np.nan_to_num(·, nan=-9999.0)`.  NDVI and NDWI
coverage use this same computation on their own bands.
-/

/-- NoData masking of one source's value at one pixel. -/
def maskNodata (nodata : Option ℚ) (v : FloatVal) : FloatVal :=
  match v, nodata with
  | some x, some nd => if x = nd then none else some x
  | w, _ => w

/-- The per-pixel stack across the discovered years. -/
def stackAt (srcs : List (Option ℚ × FloatVal)) : List FloatVal :=
  srcs.map (fun s => maskNodata s.1 s.2)

/-- `finite-count / stack-height`, NaN on an empty stack (numpy 0/0). -/
def coverageF (stack : List FloatVal) : FloatVal :=
  if stack.length = 0 then none
  else some ((stack.countP (fun v => v.isSome) : ℚ) / (stack.length : ℚ))

/-- `clean(x) = np.nan_to_num(x, nan=-9999.0)`. -/
def clean (v : FloatVal) : ℚ :=
  match v with
  | some x => x
  | none => -9999

/-- The coverage value written for one pixel. -/
def writtenCoverage (srcs : List (Option ℚ × FloatVal)) : ℚ :=
  clean (coverageF (stackAt srcs))

end Climatology

/-- C5: for every pixel of every tile, the written `ndvi_coverage` /
`ndwi_coverage` value equals exactly k/n — k the number of discovered
years whose (NoData-masked) value is finite at that pixel, n the number
of discovered yearly rasters for the month — and lies in [0, 1]. -/
theorem C5_coverage_exact (srcs : List (Option ℚ × FloatVal)) (h : srcs ≠ []) :
    Climatology.writtenCoverage srcs =
      (((Climatology.stackAt srcs).countP (fun v => v.isSome) : ℚ)) /
        (srcs.length : ℚ) ∧
    0 ≤ Climatology.writtenCoverage srcs ∧
    Climatology.writtenCoverage srcs ≤ 1 := by
  have hlen : (Climatology.stackAt srcs).length = srcs.length := by
    unfold Climatology.stackAt
    exact List.length_map ..
  have hpos : 0 < (srcs.length : ℚ) := by
    have : 0 < srcs.length := List.length_pos.mpr h
    exact_mod_cast this
  have hk : ((Climatology.stackAt srcs).countP (fun v => v.isSome)) ≤ srcs.length := by
    rw [← hlen]
    exact List.countP_le_length _
  have hwc : Climatology.writtenCoverage srcs =
      (((Climatology.stackAt srcs).countP (fun v => v.isSome) : ℚ)) /
        (srcs.length : ℚ) := by
    unfold Climatology.writtenCoverage Climatology.coverageF
    have hz : ¬ srcs.length = 0 := by
      intro h0
      exact h (List.eq_nil_of_length_eq_zero h0)
    rw [hlen, if_neg hz]
    rfl
  refine ⟨hwc, ?_, ?_⟩
  · rw [hwc]
    positivity
  · rw [hwc]
    rw [div_le_one hpos]
    exact_mod_cast hk

/-- The concrete 2-source pixel stack for the C5 witness: both sources
declare NoData -9999; the first holds the finite value 1, the second the
sentinel -9999 (masked to NaN). -/
def srcsCx : List (Option ℚ × FloatVal) :=
  [(some (-9999), some 1), (some (-9999), some (-9999))]

/-- C5 witness: on that stack the written coverage is exactly 1/2 (k = 1
finite year of n = 2), inside [0, 1]. -/
theorem C5_coverage_exact_witness :
    0 ≤ Climatology.writtenCoverage srcsCx ∧
    Climatology.writtenCoverage srcsCx ≤ 1 ∧
    Climatology.writtenCoverage srcsCx = 1 / 2 := by
  have h := C5_coverage_exact srcsCx (by simp [srcsCx])
  refine ⟨h.2.1, h.2.2, ?_⟩
  rw [h.1]
  rw [show (Climatology.stackAt srcsCx).countP (fun v => v.isSome) = 1 from rfl,
    show srcsCx.length = 2 from rfl]
  norm_num

namespace LocalAutocorr

/-!
Embedding of `pipe/local_autocorr.py :: compute_local_moran_geary`.

A raster is a grid of float cells.  Notes on the translation:

* `np.nanmean` / `np.nanstd`: `nanmeanQ` is the finite-sum over the
  finite-count; the source tests `global_std == 0`, and since the
  standard deviation is `sqrt` of the (nonnegative) variance, that test
  holds iff the variance `nanvarQ` is 0 — the branch is stated on the
  variance because the square root of a rational is not rational.
* `uniform_filter(X, size=w, mode="constant", cval=0.0) * area` is the
  plain window sum `wsum` (odd `w`, centred window, zeros outside).
* `z = (arr - mean)/std` carries a factor `1/std`; `std` appears in the
  outputs only through `z * lag_z` (factor `1/std² = 1/var`) and through
  `2*global_std**2 = 2*var`, so the body tracks `dev = x - mean` (which
  is `z*std`) and divides by `var` where the source's products of
  z-scores do.
* `mean_x`, `mean_x2` and `var_local` are computed by the source but
  never used afterwards (dead locals); they have no counterpart here.
* division by zero or by NaN yields a non-finite float: `fdiv`.
-/

structure Grid where
  H : Nat
  W : Nat
  data : Nat → Nat → FloatVal

/-- All-NaN grid of the same shape (`np.full_like(arr, np.nan)`). -/
def allNaN (g : Grid) : Grid := ⟨g.H, g.W, fun _ _ => none⟩

/-- The proposition that a grid is NaN at every (in-bounds) pixel. -/
def allNaNP (g : Grid) : Prop :=
  ∀ i j, i < g.H → j < g.W → g.data i j = none

/-- Float division: non-finite on a zero denominator. -/
def fdiv (a b : ℚ) : FloatVal := if b = 0 then none else some (a / b)

/-- Sum of `f` over all pixel coordinates of `g`. -/
def sumPix (g : Grid) (f : Nat → Nat → ℚ) : ℚ :=
  ((List.range g.H).map (fun i => ((List.range g.W).map (f i)).sum)).sum

/-- `mask.sum()` where `mask = np.isfinite(arr)`. -/
def countFinite (g : Grid) : Nat :=
  ((List.range g.H).map (fun i =>
    ((List.range g.W).map (fun j => if (g.data i j).isSome then 1 else 0)).sum)).sum

/-- Sum of the finite values. -/
def sumFinite (g : Grid) : ℚ := sumPix g (fun i j => (g.data i j).getD 0)

/-- `np.nanmean(arr)` (used only when some value is finite). -/
def nanmeanQ (g : Grid) : ℚ := sumFinite g / (countFinite g : ℚ)

/-- `np.nanstd(arr) ** 2`: the mean squared deviation over finite cells. -/
def nanvarQ (g : Grid) : ℚ :=
  sumPix g (fun i j =>
    match g.data i j with
    | some x => (x - nanmeanQ g) ^ 2
    | none => 0) / (countFinite g : ℚ)

/-- Centred window sum of `f` over a `w × w` neighbourhood, zero outside
the grid (`uniform_filter(·, size=w, mode="constant", cval=0) * area`). -/
def wsum (g : Grid) (f : Nat → Nat → ℚ) (w : Nat) (i j : Nat) : ℚ :=
  ((List.range w).map (fun di =>
    ((List.range w).map (fun dj =>
      let ii : ℤ := (i : ℤ) + (di : ℤ) - ((w / 2 : Nat) : ℤ)
      let jj : ℤ := (j : ℤ) + (dj : ℤ) - ((w / 2 : Nat) : ℤ)
      if 0 ≤ ii ∧ ii < (g.H : ℤ) ∧ 0 ≤ jj ∧ jj < (g.W : ℤ) then
        f ii.toNat jj.toNat
      else 0)).sum)).sum

/-- The body of `compute_local_moran_geary` after the two early
returns. -/
def mainBranch (arr : Grid) (w mv : Nat) : Grid × Grid :=
  let μ := nanmeanQ arr
  let var := nanvarQ arr
  let arr_f := fun i j => (arr.data i j).getD 0
  let arr2_f := fun i j => (arr_f i j) ^ 2
  let valid_count := fun i j =>
    wsum arr (fun a b => if (arr.data a b).isSome then (1 : ℚ) else 0) w i j
  let sum_x := fun i j => wsum arr arr_f w i j
  let sum_x2 := fun i j => wsum arr arr2_f w i j
  let dev_f := fun i j => ((arr.data i j).map (fun x => x - μ)).getD 0
  let sum_dev := fun i j => wsum arr dev_f w i j
  let center_valid := fun i j => if (arr.data i j).isSome then (1 : ℚ) else 0
  let neighbor_count := fun i j => valid_count i j - center_valid i j
  let ncount : Nat → Nat → FloatVal := fun i j =>
    if neighbor_count i j < 1 then none else some (neighbor_count i j)
  let moranRaw : Nat → Nat → FloatVal := fun i j =>
    (arr.data i j).bind (fun x => (ncount i j).map (fun nc =>
      (x - μ) * ((sum_dev i j - dev_f i j) / nc) / var))
  let exF : Nat → Nat → FloatVal := fun i j =>
    (ncount i j).map (fun nc => (sum_x i j - arr_f i j) / nc)
  let ex2F : Nat → Nat → FloatVal := fun i j =>
    (ncount i j).map (fun nc => (sum_x2 i j - arr2_f i j) / nc)
  let gearyRaw : Nat → Nat → FloatVal := fun i j =>
    (arr.data i j).bind (fun x => (exF i j).bind (fun e1 => (ex2F i j).map (fun e2 =>
      (x ^ 2 - 2 * x * e1 + e2) / (2 * var))))
  let cond : Nat → Nat → Bool := fun i j =>
    (match ncount i j with
     | some nc => decide ((mv : ℚ) ≤ nc)
     | none => false) && (arr.data i j).isSome
  (⟨arr.H, arr.W, fun i j => if cond i j then moranRaw i j else none⟩,
   ⟨arr.H, arr.W, fun i j => if cond i j then gearyRaw i j else none⟩)

/-- `compute_local_moran_geary(arr, window_size=11, min_valid=5)`: all
NaN when no value is finite, all NaN when `global_std == 0`, else the
local statistics. -/
def compute_local_moran_geary (arr : Grid) (w : Nat) (mv : Nat) : Grid × Grid :=
  if countFinite arr = 0 then (allNaN arr, allNaN arr)
  else if nanvarQ arr = 0 then (allNaN arr, allNaN arr)
  else mainBranch arr w mv

lemma sumPix_congr (g : Grid) (f f' : Nat → Nat → ℚ)
    (h : ∀ i j, i < g.H → j < g.W → f i j = f' i j) :
    sumPix g f = sumPix g f' := by
  unfold sumPix
  refine congrArg List.sum (List.map_congr_left fun i hi => ?_)
  refine congrArg List.sum (List.map_congr_left fun j hj => ?_)
  exact h i j (List.mem_range.mp hi) (List.mem_range.mp hj)

lemma sumPix_zero (g : Grid) (f : Nat → Nat → ℚ)
    (h : ∀ i j, i < g.H → j < g.W → f i j = 0) :
    sumPix g f = 0 := by
  rw [sumPix_congr g f (fun _ _ => 0) h]
  unfold sumPix
  simp

lemma sumPix_mul_left (g : Grid) (c : ℚ) (f : Nat → Nat → ℚ) :
    sumPix g (fun i j => c * f i j) = c * sumPix g f := by
  unfold sumPix
  have hstep : ((List.range g.H).map
      (fun i => ((List.range g.W).map ((fun i j => c * f i j) i)).sum)).sum =
      ((List.range g.H).map (fun i => c * ((List.range g.W).map (f i)).sum)).sum := by
    refine congrArg List.sum (List.map_congr_left fun i _ => ?_)
    exact List.sum_map_mul_left ..
  rw [hstep]
  exact List.sum_map_mul_left ..

lemma countFinite_cast (g : Grid) :
    ((countFinite g : ℚ)) =
      sumPix g (fun i j => if (g.data i j).isSome then (1 : ℚ) else 0) := by
  unfold countFinite sumPix
  rw [Nat.cast_list_sum, List.map_map]
  refine congrArg List.sum (List.map_congr_left fun i _ => ?_)
  simp only [Function.comp_apply]
  rw [Nat.cast_list_sum, List.map_map]
  refine congrArg List.sum (List.map_congr_left fun j _ => ?_)
  simp only [Function.comp_apply]
  split <;> simp

lemma nanmean_const (g : Grid) (c : ℚ)
    (h : ∀ i j, i < g.H → j < g.W → g.data i j = none ∨ g.data i j = some c)
    (hc : countFinite g ≠ 0) : nanmeanQ g = c := by
  have hsum : sumFinite g = c * (countFinite g : ℚ) := by
    unfold sumFinite
    rw [countFinite_cast, ← sumPix_mul_left]
    refine sumPix_congr g _ _ fun i j hi hj => ?_
    rcases h i j hi hj with hv | hv <;> simp [hv]
  unfold nanmeanQ
  rw [hsum]
  field_simp

lemma nanvar_const (g : Grid) (c : ℚ)
    (h : ∀ i j, i < g.H → j < g.W → g.data i j = none ∨ g.data i j = some c)
    (hc : countFinite g ≠ 0) : nanvarQ g = 0 := by
  unfold nanvarQ
  rw [sumPix_zero]
  · simp
  · intro i j hi hj
    rcases h i j hi hj with hv | hv
    · simp [hv]
    · simp [hv, nanmean_const g c h hc]

end LocalAutocorr

/-- C6: for every input raster whose finite values are all equal to one
constant (including the all-NaN raster), `compute_local_moran_geary`
returns NaN at every pixel of both the local Moran's I output and the
local Geary's C output — either the no-finite-data early return or the
`global_std == 0` early return fires. -/
theorem C6_constant_raster_all_nan (arr : LocalAutocorr.Grid) (w mv : Nat) (c : ℚ)
    (h : ∀ i j, i < arr.H → j < arr.W →
      arr.data i j = none ∨ arr.data i j = some c) :
    LocalAutocorr.allNaNP (LocalAutocorr.compute_local_moran_geary arr w mv).1 ∧
    LocalAutocorr.allNaNP (LocalAutocorr.compute_local_moran_geary arr w mv).2 := by
  unfold LocalAutocorr.compute_local_moran_geary
  by_cases hc : LocalAutocorr.countFinite arr = 0
  · rw [if_pos hc]
    exact ⟨fun i j _ _ => rfl, fun i j _ _ => rfl⟩
  · rw [if_neg hc, if_pos (LocalAutocorr.nanvar_const arr c h hc)]
    exact ⟨fun i j _ _ => rfl, fun i j _ _ => rfl⟩

/-- C6 witness: the constant 2×2 raster with every cell 1 yields all-NaN
Moran and Geary outputs. -/
theorem C6_constant_raster_all_nan_witness :
    (∀ i j, i < (2 : Nat) → j < (2 : Nat) →
      (LocalAutocorr.Grid.mk 2 2 (fun _ _ => some 1)).data i j = none ∨
      (LocalAutocorr.Grid.mk 2 2 (fun _ _ => some 1)).data i j = some 1) ∧
    LocalAutocorr.allNaNP
      (LocalAutocorr.compute_local_moran_geary
        (LocalAutocorr.Grid.mk 2 2 (fun _ _ => some 1)) 11 5).1 ∧
    LocalAutocorr.allNaNP
      (LocalAutocorr.compute_local_moran_geary
        (LocalAutocorr.Grid.mk 2 2 (fun _ _ => some 1)) 11 5).2 :=
  ⟨fun _ _ _ _ => Or.inr rfl,
    (C6_constant_raster_all_nan _ 11 5 1 (fun _ _ _ _ => Or.inr rfl)).1,
    (C6_constant_raster_all_nan _ 11 5 1 (fun _ _ _ _ => Or.inr rfl)).2⟩

/-- C9: for a fully balanced surrogate tree of depth d (every leaf at depth
exactly d), `count_leaves` returns 2^d and `max_depth` (called with its
default accumulator 0) returns d. -/
theorem C9_perfect_tree_counts (t : VizLoader.Tree) (d : Nat)
    (h : VizLoader.isPerfect t d = true) :
    VizLoader.count_leaves t = 2 ^ d ∧ VizLoader.max_depth t 0 = d := by
  refine ⟨VizLoader.count_leaves_of_isPerfect t d h, ?_⟩
  simpa using VizLoader.max_depth_of_isPerfect t d 0 h

/-- C9 witness: a concrete balanced tree of depth 2 has 4 leaves and
max depth 2. -/
theorem C9_perfect_tree_counts_witness :
    VizLoader.count_leaves
        (VizLoader.Tree.node "a" 1
          (VizLoader.Tree.node "b" 2 (VizLoader.Tree.leaf 0) (VizLoader.Tree.leaf 1))
          (VizLoader.Tree.node "c" 3 (VizLoader.Tree.leaf 2) (VizLoader.Tree.leaf 3))) = 2 ^ 2 ∧
    VizLoader.max_depth
        (VizLoader.Tree.node "a" 1
          (VizLoader.Tree.node "b" 2 (VizLoader.Tree.leaf 0) (VizLoader.Tree.leaf 1))
          (VizLoader.Tree.node "c" 3 (VizLoader.Tree.leaf 2) (VizLoader.Tree.leaf 3))) 0 = 2 :=
  C9_perfect_tree_counts _ 2 (by decide)
